import Mathlib

/-!
The archive producer and the transfer orchestrator of s3-archiver.

A shallow embedding of `archiver/archiver.go`, `s3client/s3client.go` and
`processTransfer` of `main.go`.

Conventions of the embedding.

* A Go `string` is a Lean `String`.  Keys are valid UTF-8, so the byte-wise
  `strings.HasPrefix` and the slice `s[len(p):]` taken after a successful prefix
  test agree with the character-wise operations used here.
* Everything outside the repository is an explicit environment: the AWS SDK
  client is a record of functions (`Svc`), a response body is the list of chunks
  its `Read` calls return followed by end-of-file or a read error (`Body`), and the
  output `io.Writer` of the archive is a `Sink` that may fail at one chosen
  operation of the archive writer.
* `archive/zip`'s `Writer` is modelled at the level of entries: the names and
  the uncompressed contents handed to it (`ZipWriter`), together with the two
  refusals of the library that do not come from the sink (a name longer than
  65535 bytes, and data written to an entry whose name ends in `/`).  The bytes
  of the container, compression and the buffering between the writer and the
  sink are not modelled; a failure of the sink may surface at any operation of
  the writer.
* The header fields `Method` and `Modified`, the registered compressor and the
  progress line that `processTransfer` prints take no part in what is proved
  and are left out.
* Every call on the environment is logged, so that statements about what was
  opened, written or closed, and in which order, can be made on the log.
-/

namespace S3Archiver

/-! ## Errors -/

/-- A Go `error`: either an error created outside the repository or with no
cause (`base`), or `fmt.Errorf(msg ++ ": %w", cause)` (`wrap`). -/
inductive Error where
  | base (msg : String)
  | wrap (msg : String) (cause : Error)
  deriving DecidableEq, Repr

/-- The function `errors.Is err target`: `target` occurs in the chain obtained from `err`
by repeated unwrapping. -/
def Error.Is : Error → Error → Bool
  | .base m, target => decide (Error.base m = target)
  | .wrap m c, target => decide (Error.wrap m c = target) || c.Is target

/-! ## Strings -/

/-- The function `strings.HasPrefix(s, pre)`. -/
def HasPrefix (s pre : String) : Bool := pre.data.isPrefixOf s.data

/-- The function `strings.HasSuffix(s, suf)`. -/
def HasSuffix (s suf : String) : Bool := suf.data.isSuffixOf s.data

/-- The function `strings.TrimPrefix(s, pre)`: `s[len(pre):]` when `s` starts with `pre`,
else `s`. -/
def TrimPrefix (s pre : String) : String :=
  if HasPrefix s pre then ⟨s.data.drop pre.data.length⟩ else s

/-- The path of an object inside the archive, `archiver.go` lines 42-47:
```
zipPath := obj.Key
if sourcePrefix != "" && strings.HasPrefix(zipPath, sourcePrefix) {
    zipPath = zipPath[len(sourcePrefix):]
    zipPath = strings.TrimPrefix(zipPath, "/")
}
``` -/
def zipPath (sourcePrefix key : String) : String :=
  if sourcePrefix ≠ "" && HasPrefix key sourcePrefix then
    TrimPrefix ⟨key.data.drop sourcePrefix.data.length⟩ "/"
  else key

/-! ## The object store client (`s3client/s3client.go`) -/

/-- The struct `S3Object` of `s3client.go`. -/
structure S3Object where
  Key : String
  Size : Int
  deriving DecidableEq, Repr

/-- The body of a `GetObject` response, an `io.ReadCloser`: the chunks that the
successive `Read` calls return, and then end-of-file (`err = none`) or a read
error. -/
structure Body where
  chunks : List (List UInt8)
  err : Option Error

/-- All the bytes a body yields. -/
def Body.content (b : Body) : List UInt8 := b.chunks.flatten

/-- One entry of the archive: its name and the uncompressed bytes written to it. -/
structure Entry where
  Name : String
  data : List UInt8
  deriving DecidableEq, Repr

/-- The output `io.Writer` of the archive.  `failure = some (n, e)`: the write to
the sink made during operation number `n` of the archive writer fails with `e`;
`failure = none`: every write to the sink succeeds. -/
structure Sink where
  failure : Option (Nat × Error)

/-- The state of `zip.Writer`: the sink, the number of operations performed on
it, the entries handed to the writer so far (oldest first, the last one being
the entry that currently receives data) and whether `Close` has written the
central directory. -/
structure ZipWriter where
  w : Sink
  ops : Nat
  dir : List Entry
  closed : Bool

/-- The AWS SDK client `s3.Client`, external to the repository: the outcome of
each call as a function of its arguments.  `ListObjectsV2` gives the pages of
the paginator in order; `PutObject` receives what was read from the stream. -/
structure Svc where
  ListObjectsV2 : String → String → List (Except Error (List S3Object))
  GetObject : String → String → Except Error Body
  PutObject : String → String → ZipWriter → Option Error

/-- The struct `S3Client` of `s3client.go`. -/
structure S3Client where
  svc : Svc

/-- The page loop of `ListObjects`, `s3client.go` lines 53-67: the objects of
the pages are appended in order, the first failing page aborts. -/
def listPages : List (Except Error (List S3Object)) → List S3Object → Except Error (List S3Object)
  | [], objects => .ok objects
  | .error err :: _, _ => .error (.wrap "error listing objects" err)
  | .ok page :: rest, objects => listPages rest (objects ++ page)

/-- The method `S3Client.ListObjects`, `s3client.go` lines 40-68. -/
def S3Client.ListObjects (c : S3Client) (bucket pre : String) : Except Error (List S3Object) :=
  listPages (c.svc.ListObjectsV2 bucket pre) []

/-- The method `S3Client.GetObject`, `s3client.go` lines 71-83. -/
def S3Client.GetObject (c : S3Client) (bucket key : String) : Except Error Body :=
  match c.svc.GetObject bucket key with
  | .error err => .error (.wrap ("error getting object " ++ bucket ++ "/" ++ key) err)
  | .ok body => .ok body

/-- The method `S3Client.UploadStream`, `s3client.go` lines 86-107.  `reader` is what
`io.ReadAll` obtains from the stream: all of its data, or the error the stream
ends with. -/
def S3Client.UploadStream (c : S3Client) (reader : Except Error ZipWriter) (bucket key : String) :
    Option Error :=
  match reader with
  | .error err => some (.wrap "error reading data" err)
  | .ok data =>
    match c.svc.PutObject bucket key data with
    | some err => some (.wrap ("error uploading to " ++ bucket ++ "/" ++ key) err)
    | none => none

/-! ## The archive writer (`archive/zip`) -/

/-- The writer that `CreateHeader` returns: `fileWriter` for a file, `dirWriter`
for a name that ends in `/`. -/
inductive EntryWriter where
  | fileWriter
  | dirWriter
  deriving DecidableEq, Repr

/-- The failure of the sink, if it is the current operation that hits it. -/
def ZipWriter.sinkErr (z : ZipWriter) : Option Error :=
  match z.w.failure with
  | some (n, e) => if n = z.ops then some e else none
  | none => none

/-- The function `zip.NewWriter(w)`. -/
def NewWriter (w : Sink) : ZipWriter := ⟨w, 0, [], false⟩

/-- The method `zip.Writer.CreateHeader`: closes the previous entry and writes the
header of a new one.  Fails when the sink fails, and with `errLongName` when the
name has more than 65535 bytes.  A name ending in `/` makes a directory entry. -/
def ZipWriter.CreateHeader (z : ZipWriter) (name : String) : Except Error (EntryWriter × ZipWriter) :=
  match z.sinkErr with
  | some e => .error e
  | none =>
    if name.utf8ByteSize > 65535 then .error (.base "zip: FileHeader.Name too long")
    else
      .ok (if HasSuffix name "/" then .dirWriter else .fileWriter,
           { z with ops := z.ops + 1, dir := z.dir ++ [⟨name, []⟩] })

/-- Appends bytes to the data of the last entry. -/
def appendData (p : List UInt8) : List Entry → List Entry
  | [] => []
  | [e] => [{ e with data := e.data ++ p }]
  | e :: es => e :: appendData p es

/-- The `Write` method of an entry writer.  `dirWriter.Write` accepts only an empty
slice (`zip: write to directory`); `fileWriter.Write` compresses into the sink. -/
def ZipWriter.Write (z : ZipWriter) (ew : EntryWriter) (p : List UInt8) : Except Error ZipWriter :=
  match ew with
  | .dirWriter => if p.isEmpty then .ok z else .error (.base "zip: write to directory")
  | .fileWriter =>
    match z.sinkErr with
    | some e => .error e
    | none => .ok { z with ops := z.ops + 1, dir := appendData p z.dir }

/-- The method `zip.Writer.Close`: closes the last entry and writes the central
directory. -/
def ZipWriter.Close (z : ZipWriter) : Except Error ZipWriter :=
  if z.closed then .error (.base "zip: writer closed twice")
  else
    match z.sinkErr with
    | some e => .error e
    | none => .ok { z with ops := z.ops + 1, closed := true }

/-- The function `io.Copy(writer, reader)`: every non-empty chunk read is written before
the next read; the first failing write, or the read error that ends the stream,
is returned. -/
def Copy (ew : EntryWriter) : ZipWriter → List (List UInt8) → Option Error → ZipWriter × Option Error
  | z, [], rerr => (z, rerr)
  | z, p :: rest, rerr =>
    if p.isEmpty then Copy ew z rest rerr
    else
      match z.Write ew p with
      | .error e => (z, some e)
      | .ok z1 => Copy ew z1 rest rerr

/-! ## The archive producer (`archiver/archiver.go`) -/

/-- The calls `CreateArchive` makes, with the index of the object they are made
for and whether they succeeded. -/
inductive Event where
  | GetObject (i : Nat) (key : String) (ok : Bool)
  | CreateHeader (i : Nat) (name : String) (ok : Bool)
  | Copy (i : Nat) (ok : Bool)
  | ReaderClose (i : Nat)
  | ZipClose (ok : Bool)
  deriving DecidableEq, Repr

/-- What a call of `CreateArchive` leaves behind: the error it returns, the
archive writer and the log of its calls. -/
structure Run where
  err : Option Error
  zip : ZipWriter
  trace : List Event

/-- The body of `CreateArchive` from the loop on, `archiver.go` lines 33-76,
for the objects from index `i` on. -/
def archiveLoop (s3Client : S3Client) (bucket sourcePrefix : String) :
    Nat → ZipWriter → List S3Object → Run
  | _, z, [] =>
    match z.Close with
    | .error err => ⟨some (.wrap "failed to close zip writer" err), z, [.ZipClose false]⟩
    | .ok z1 => ⟨none, z1, [.ZipClose true]⟩
  | i, z, obj :: rest =>
    match s3Client.GetObject bucket obj.Key with
    | .error err =>
      ⟨some (.wrap ("failed to get object " ++ obj.Key) err), z, [.GetObject i obj.Key false]⟩
    | .ok reader =>
      match z.CreateHeader (zipPath sourcePrefix obj.Key) with
      | .error err =>
        ⟨some (.wrap "failed to create file in archive" err), z,
          [.GetObject i obj.Key true, .CreateHeader i (zipPath sourcePrefix obj.Key) false,
           .ReaderClose i]⟩
      | .ok (writer, z1) =>
        match Copy writer z1 reader.chunks reader.err with
        | (z2, some err) =>
          ⟨some (.wrap "failed to copy data to archive" err), z2,
            [.GetObject i obj.Key true, .CreateHeader i (zipPath sourcePrefix obj.Key) true,
             .Copy i false, .ReaderClose i]⟩
        | (z2, none) =>
          let r := archiveLoop s3Client bucket sourcePrefix (i + 1) z2 rest
          { r with trace :=
              [.GetObject i obj.Key true, .CreateHeader i (zipPath sourcePrefix obj.Key) true,
               .Copy i true, .ReaderClose i] ++ r.trace }

/-- The method `Archiver.CreateArchive`, `archiver.go` lines 23-77. -/
def CreateArchive (w : Sink) (s3Client : S3Client) (bucket sourcePrefix : String)
    (objects : List S3Object) : Run :=
  archiveLoop s3Client bucket sourcePrefix 0 (NewWriter w) objects

/-! ## The transfer orchestrator (`main.go`) -/

/-- The steps of `processTransfer`; `Archive e` is a call made by `CreateArchive`
in the producer goroutine. -/
inductive TransferEvent where
  | ListObjects (bucket pre : String)
  | Pipe
  | GoUpload
  | GoArchive
  | Archive (e : Event)
  | PipeWriterClose (err : Option Error)
  | PipeRead (err : Option Error)
  | UploadStream (bucket key : String) (err : Option Error)
  | PipeReaderClose (err : Error)
  | ErrChSend (err : Error)
  | ErrChClose
  deriving DecidableEq, Repr

/-- What a call of `processTransfer` leaves behind: the error it returns, the
values sent on `errCh` before it was closed, and the log of its steps. -/
structure Transfer where
  err : Option Error
  errCh : List Error
  trace : List TransferEvent

/-- The receive `<-errCh` on a channel that holds the values `sent` and is then
closed: the first value sent, or `nil` when the channel was closed empty. -/
def recv (sent : List Error) : Option Error := sent.head?

/-- The function `processTransfer`, `main.go` lines 52-99.

The producer and the uploader goroutine are joined by a synchronous `io.Pipe`.
The uploader calls `io.ReadAll` on the read end before anything else, and the
read end is closed only after `UploadStream` has returned; hence no write of the
producer to the pipe fails (the sink of `CreateArchive` has `failure = none`),
`io.ReadAll` returns once the producer has closed the write end, and it returns
the error the write end was closed with, if any.  The outcome is therefore
determined, and it is computed here producer first, uploader second. -/
def processTransfer (s3Client : S3Client)
    (sourceBucket sourcePrefix destBucket destKey : String) : Transfer :=
  match s3Client.ListObjects sourceBucket sourcePrefix with
  | .error err =>
    ⟨some (.wrap "failed to list objects" err), [], [.ListObjects sourceBucket sourcePrefix]⟩
  | .ok objects =>
    if objects.length = 0 then
      ⟨some (.base ("no objects found with prefix " ++ sourcePrefix ++ " in bucket " ++ sourceBucket)),
        [], [.ListObjects sourceBucket sourcePrefix]⟩
    else
      -- producer goroutine, lines 83-91
      let run := CreateArchive ⟨none⟩ s3Client sourceBucket sourcePrefix objects
      -- what the read end of the pipe yields
      let pr : Except Error ZipWriter :=
        match run.err with
        | some e => .error e
        | none => .ok run.zip
      -- uploader goroutine, lines 72-80
      let uerr := s3Client.UploadStream pr destBucket destKey
      let sent : List Error := uerr.toList
      ⟨(recv sent).map (Error.wrap "failed to upload archive"), sent,
        [.ListObjects sourceBucket sourcePrefix, .Pipe, .GoUpload, .GoArchive]
          ++ run.trace.map .Archive
          ++ [.PipeWriterClose run.err, .PipeRead run.err,
              .UploadStream destBucket destKey uerr]
          ++ sent.flatMap (fun e => [.PipeReaderClose e, .ErrChSend e])
          ++ [.ErrChClose]⟩

/-! ## Sample environments -/

/-- A store with the given objects: `GetObject` returns the body listed for a key
and fails with `NoSuchKey` for any other key; listing gives one page with the
keys in order; `PutObject` succeeds. -/
def storeOf (objs : List (String × Body)) : S3Client :=
  ⟨{ ListObjectsV2 := fun _ _ => [.ok (objs.map fun o => ⟨o.1, (o.2.content.length : Int)⟩)]
     GetObject := fun _ key =>
       match objs.lookup key with
       | some b => .ok b
       | none => .error (.base "NoSuchKey")
     PutObject := fun _ _ _ => none }⟩

/-- A body that yields the given bytes in one chunk and then end-of-file. -/
def bodyOf (bytes : List UInt8) : Body := ⟨[bytes], none⟩

/-- A store whose listing shows one object that cannot be opened. -/
def deniedStore : S3Client :=
  ⟨{ ListObjectsV2 := fun _ _ => [.ok [⟨"a/x", 1⟩]]
     GetObject := fun _ _ => .error (.base "AccessDenied")
     PutObject := fun _ _ _ => none }⟩

/-- The entry name as the specification words it: when the key starts with the
prefix, the key with the prefix removed and then one leading `/` removed if one
is present; otherwise the key unchanged. -/
def specZipPath (sourcePrefix key : String) : String :=
  if HasPrefix key sourcePrefix then
    (let rest : String := ⟨key.data.drop sourcePrefix.data.length⟩
     if HasPrefix rest "/" then ⟨rest.data.drop 1⟩ else rest)
  else key

/-- The entry a listed object is meant to become: the flattened name of its key
and all the bytes of its body. -/
def expectedEntry (s3Client : S3Client) (bucket sourcePrefix : String) (obj : S3Object) : Entry :=
  ⟨zipPath sourcePrefix obj.Key,
    match s3Client.GetObject bucket obj.Key with
    | .ok body => body.content
    | .error _ => []⟩

/-- The discipline of the source streams, checked along a log: `cur` is the
stream that is open.  A stream is opened (a successful `GetObject`) only while
none is open, `reader.Close()` closes the stream that is open, and none is open
at the end of the log. -/
def streamsDisciplined : Option Nat → List Event → Bool
  | cur, [] => cur.isNone
  | cur, .GetObject i _ true :: es => cur.isNone && streamsDisciplined (some i) es
  | cur, .ReaderClose i :: es => decide (cur = some i) && streamsDisciplined none es
  | cur, _ :: es => streamsDisciplined cur es

/-- The events a run may log when it stops at the failing `GetObject` of the
object of index `K`: calls for the objects before `K`, and the failed
`GetObject` for `K` itself. -/
def Event.upTo (K : Nat) : Event → Prop
  | .GetObject j _ ok => j < K ∨ (j = K ∧ ok = false)
  | .CreateHeader j _ _ => j < K
  | .Copy j _ => j < K
  | .ReaderClose j => j < K
  | .ZipClose _ => False

/-- The events of the objects from index `i` on. -/
def Event.notBefore (i : Nat) : Event → Prop
  | .GetObject j _ _ => i ≤ j
  | .CreateHeader j _ _ => i ≤ j
  | .Copy j _ => i ≤ j
  | .ReaderClose j => i ≤ j
  | .ZipClose _ => True

/-! ## Strings: lemmas -/

theorem HasPrefix_append (p t : String) : HasPrefix (p ++ t) p = true := by
  simp [HasPrefix, String.data_append]

theorem HasPrefix_iff (s p : String) : HasPrefix s p = true ↔ ∃ t : String, s = p ++ t := by
  unfold HasPrefix
  rw [List.isPrefixOf_iff_prefix]
  constructor
  · rintro ⟨t, ht⟩
    exact ⟨⟨t⟩, String.ext (by simp [String.data_append, ht])⟩
  · rintro ⟨t, rfl⟩
    exact ⟨t.data, by simp [String.data_append]⟩

theorem ne_empty_iff (s : String) : s ≠ "" ↔ s.data ≠ [] := by
  constructor
  · intro h hd
    exact h (String.ext (by simpa using hd))
  · rintro h rfl
    exact h rfl

/-- With a non-empty prefix, a key made of the prefix and a remainder is named
by the remainder less one leading slash. -/
theorem zipPath_append (p t : String) (hp : p ≠ "") :
    zipPath p (p ++ t) = TrimPrefix t "/" := by
  have h : HasPrefix (p ++ t) p = true := HasPrefix_append p t
  simp [zipPath, hp, h, String.data_append]

theorem zipPath_of_not_hasPrefix (p key : String) (h : HasPrefix key p = false) :
    zipPath p key = key := by
  simp [zipPath, h]

theorem zipPath_empty (key : String) : zipPath "" key = key := by
  simp [zipPath]

/-- The flattened name is empty exactly for the empty key, for the key equal to
the non-empty prefix, and for the prefix followed by a single slash. -/
theorem zipPath_eq_empty_iff (p key : String) :
    zipPath p key = "" ↔ key = "" ∨ (p ≠ "" ∧ (key = p ∨ key = p ++ "/")) := by
  by_cases hp : p = ""
  · subst hp
    simp [zipPath_empty]
  · by_cases h : HasPrefix key p = true
    · obtain ⟨t, rfl⟩ := (HasPrefix_iff key p).1 h
      rw [zipPath_append p t hp]
      have hpd : p.data ≠ [] := (ne_empty_iff p).1 hp
      have e1 : p ++ t = "" ↔ False := by
        simp [String.ext_iff, String.data_append, hpd]
      have e2 : p ++ t = p ↔ t.data = [] := by
        simp [String.ext_iff, String.data_append]
      have e3 : p ++ t = p ++ "/" ↔ t.data = ['/'] := by
        simp [String.ext_iff, String.data_append]
      rw [e1, e2, e3]
      obtain ⟨l⟩ := t
      simp only [TrimPrefix, HasPrefix, String.ext_iff]
      rcases l with _ | ⟨c, l⟩
      · simp [hp]
      · by_cases hc : c = '/'
        · subst hc
          simp [hp, List.isPrefixOf]
        · have hc2 : ('/' == c) = false := by
            simpa [beq_iff_eq] using fun h => hc h.symm
          simp [hp, List.isPrefixOf, hc, hc2]
    · have hf : HasPrefix key p = false := by simpa using h
      rw [zipPath_of_not_hasPrefix p key hf]
      constructor
      · intro hk; exact Or.inl hk
      · rintro (hk | ⟨_, hk | hk⟩)
        · exact hk
        · exact absurd (by rw [hk]; simpa using HasPrefix_append p "") h
        · exact absurd (by rw [hk]; exact HasPrefix_append p "/") h

/-! ## The archive writer: lemmas -/

theorem appendData_cons_cons (p : List UInt8) (x y : Entry) (l : List Entry) :
    appendData p (x :: y :: l) = x :: appendData p (y :: l) := by
  simp [appendData]

theorem appendData_nil (l : List Entry) : appendData [] l = l := by
  induction l with
  | nil => rfl
  | cons e es ih =>
    cases es with
    | nil => simp [appendData]
    | cons e2 es2 => rw [appendData_cons_cons, ih]

theorem appendData_append (a b : List UInt8) (l : List Entry) :
    appendData b (appendData a l) = appendData (a ++ b) l := by
  induction l with
  | nil => rfl
  | cons e es ih =>
    cases es with
    | nil => simp [appendData]
    | cons e2 es2 =>
      rw [appendData_cons_cons]
      cases h : appendData a (e2 :: es2) with
      | nil =>
        cases es2 with
        | nil => simp [appendData] at h
        | cons e3 es3 => simp [appendData_cons_cons] at h
      | cons y ys => rw [appendData_cons_cons, ← h, ih, appendData_cons_cons]

theorem appendData_snoc (p : List UInt8) (l : List Entry) (e : Entry) :
    appendData p (l ++ [e]) = l ++ [{ e with data := e.data ++ p }] := by
  induction l with
  | nil => rfl
  | cons x xs ih =>
    cases xs with
    | nil => simp [appendData]
    | cons y ys =>
      rw [List.cons_append, List.cons_append, appendData_cons_cons, ← List.cons_append, ih]
      rfl

theorem sinkErr_of_no_failure (z : ZipWriter) (h : z.w.failure = none) : z.sinkErr = none := by
  simp [ZipWriter.sinkErr, h]

/-- A copy that returns no error has read the stream to its end without a read
error and has appended every byte of it to the current entry. -/
theorem Copy_ok (ew : EntryWriter) (chunks : List (List UInt8)) (rerr : Option Error) :
    ∀ z z2 : ZipWriter, Copy ew z chunks rerr = (z2, none) →
      rerr = none ∧ z2.dir = appendData chunks.flatten z.dir ∧ z2.closed = z.closed ∧
        z2.w = z.w := by
  induction chunks with
  | nil =>
    intro z z2 h
    simp only [Copy, Prod.mk.injEq] at h
    obtain ⟨rfl, rfl⟩ := h
    simp [appendData_nil]
  | cons p rest ih =>
    intro z z2 h
    by_cases hp : p.isEmpty = true
    · have hp2 : p = [] := by simpa using hp
      subst hp2
      simp only [Copy, List.isEmpty_nil, if_true] at h
      simpa using ih z z2 h
    · simp only [Copy, hp, Bool.false_eq_true, if_false] at h
      cases ew with
      | dirWriter => simp [ZipWriter.Write, hp] at h
      | fileWriter =>
        cases hs : z.sinkErr with
        | some e => simp [ZipWriter.Write, hs] at h
        | none =>
          simp only [ZipWriter.Write, hs] at h
          obtain ⟨h1, h2, h3, h4⟩ := ih _ z2 h
          refine ⟨h1, ?_, h3, h4⟩
          rw [h2]
          simp [appendData_append]

/-- On a sink that never fails, a stream that ends without a read error is
copied without error, provided a directory entry receives no byte. -/
theorem Copy_succeeds (ew : EntryWriter) (chunks : List (List UInt8)) :
    ∀ z : ZipWriter, z.w.failure = none → (ew = .dirWriter → chunks.flatten = []) →
      ∃ z2, Copy ew z chunks none = (z2, none) := by
  induction chunks with
  | nil => intro z _ _; exact ⟨z, rfl⟩
  | cons p rest ih =>
    intro z hw hd
    by_cases hp : p.isEmpty = true
    · have hp2 : p = [] := by simpa using hp
      subst hp2
      simp only [Copy, List.isEmpty_nil, if_true]
      exact ih z hw (by simpa using hd)
    · simp only [Copy, hp, Bool.false_eq_true, if_false]
      cases ew with
      | dirWriter =>
        have := hd rfl
        simp at this
        exact absurd (by simp [this.1]) hp
      | fileWriter =>
        simp only [ZipWriter.Write, sinkErr_of_no_failure z hw]
        exact ih _ hw (by simp)

theorem CreateHeader_ok (z z1 : ZipWriter) (name : String) (ew : EntryWriter)
    (h : z.CreateHeader name = .ok (ew, z1)) :
    z1.dir = z.dir ++ [⟨name, []⟩] ∧ z1.closed = z.closed ∧ z1.w = z.w ∧
      ew = (if HasSuffix name "/" then .dirWriter else .fileWriter) ∧
      name.utf8ByteSize ≤ 65535 := by
  unfold ZipWriter.CreateHeader at h
  cases hs : z.sinkErr with
  | some e => simp [hs] at h
  | none =>
    simp only [hs] at h
    by_cases hn : name.utf8ByteSize > 65535
    · simp [hn] at h
    · simp only [hn, if_false, Except.ok.injEq, Prod.mk.injEq] at h
      obtain ⟨h1, h2⟩ := h
      subst h2
      exact ⟨rfl, rfl, rfl, h1.symm, by omega⟩

/-! ## The archive producer: lemmas -/

/-- A run of the loop that returns no error has appended the expected entry of
every object, in order, and has finalised the archive. -/
theorem archiveLoop_ok (s3 : S3Client) (b p : String) (objs : List S3Object) :
    ∀ (i : Nat) (z : ZipWriter), (archiveLoop s3 b p i z objs).err = none →
      (archiveLoop s3 b p i z objs).zip.dir = z.dir ++ objs.map (expectedEntry s3 b p) ∧
      (archiveLoop s3 b p i z objs).zip.closed = true := by
  induction objs with
  | nil =>
    intro i z h
    unfold archiveLoop at h ⊢
    unfold ZipWriter.Close at h ⊢
    by_cases hc : z.closed = true
    · simp [hc] at h
    · cases hs : z.sinkErr with
      | some e => simp [hc, hs] at h
      | none => simp [hc, hs]
  | cons obj rest ih =>
    intro i z h
    cases hg : s3.GetObject b obj.Key with
    | error e => simp [archiveLoop, hg] at h
    | ok reader =>
      cases hh : z.CreateHeader (zipPath p obj.Key) with
      | error e => simp [archiveLoop, hg, hh] at h
      | ok r =>
        obtain ⟨ew, z1⟩ := r
        cases hc : Copy ew z1 reader.chunks reader.err with
        | mk z2 oe =>
          cases oe with
          | some e => simp [archiveLoop, hg, hh, hc] at h
          | none =>
            simp only [archiveLoop, hg, hh, hc] at h ⊢
            obtain ⟨d1, -⟩ := ih (i + 1) z2 h
            obtain ⟨hd, -, -, -, -⟩ := CreateHeader_ok z z1 _ ew hh
            obtain ⟨-, hd2, -, -⟩ := Copy_ok ew reader.chunks reader.err z1 z2 hc
            refine ⟨?_, (ih (i + 1) z2 h).2⟩
            rw [d1, hd2, hd, appendData_snoc]
            simp [expectedEntry, hg, Body.content]

/-- On a sink that never fails, the loop returns no error when every object can
be opened and read to its end and the archive writer accepts its entry. -/
theorem archiveLoop_succeeds (s3 : S3Client) (b p : String) (objs : List S3Object) :
    ∀ (i : Nat) (z : ZipWriter), z.w.failure = none → z.closed = false →
      (∀ o ∈ objs, ∃ body, s3.GetObject b o.Key = .ok body ∧ body.err = none ∧
        (zipPath p o.Key).utf8ByteSize ≤ 65535 ∧
        (HasSuffix (zipPath p o.Key) "/" = true → body.content = [])) →
      (archiveLoop s3 b p i z objs).err = none := by
  induction objs with
  | nil =>
    intro i z hw hc _
    simp [archiveLoop, ZipWriter.Close, hc, sinkErr_of_no_failure z hw]
  | cons obj rest ih =>
    intro i z hw hc hall
    obtain ⟨body, hg, hr, hn, hd⟩ := hall obj (List.mem_cons_self _ _)
    have hh : z.CreateHeader (zipPath p obj.Key) =
        .ok (if HasSuffix (zipPath p obj.Key) "/" then .dirWriter else .fileWriter,
          { z with ops := z.ops + 1, dir := z.dir ++ [⟨zipPath p obj.Key, []⟩] }) := by
      have : ¬ (zipPath p obj.Key).utf8ByteSize > 65535 := by omega
      simp [ZipWriter.CreateHeader, sinkErr_of_no_failure z hw, this]
    obtain ⟨z2, hcopy⟩ := Copy_succeeds
      (if HasSuffix (zipPath p obj.Key) "/" then .dirWriter else .fileWriter) body.chunks
      { z with ops := z.ops + 1, dir := z.dir ++ [⟨zipPath p obj.Key, []⟩] } hw
      (by
        intro hdir
        by_cases hs : HasSuffix (zipPath p obj.Key) "/" = true
        · exact hd hs
        · simp [hs] at hdir)
    obtain ⟨-, -, hc2, hw2⟩ := Copy_ok _ body.chunks none _ z2 hcopy
    simp only [archiveLoop, hg, hh]
    rw [hr, hcopy]
    exact ih (i + 1) z2 (by rw [hw2]; exact hw) (by rw [hc2]; exact hc)
      (fun o ho => hall o (List.mem_cons_of_mem _ ho))

/-- The four ways one turn of the loop can go. -/
theorem archiveLoop_cons (s3 : S3Client) (b p : String) (i : Nat) (z : ZipWriter)
    (obj : S3Object) (rest : List S3Object) :
    (∃ g, s3.GetObject b obj.Key = .error g ∧
      archiveLoop s3 b p i z (obj :: rest) =
        ⟨some (.wrap ("failed to get object " ++ obj.Key) g), z,
          [.GetObject i obj.Key false]⟩) ∨
    (∃ reader e, s3.GetObject b obj.Key = .ok reader ∧
      z.CreateHeader (zipPath p obj.Key) = .error e ∧
      archiveLoop s3 b p i z (obj :: rest) =
        ⟨some (.wrap "failed to create file in archive" e), z,
          [.GetObject i obj.Key true, .CreateHeader i (zipPath p obj.Key) false,
           .ReaderClose i]⟩) ∨
    (∃ reader ew z1 z2 e, s3.GetObject b obj.Key = .ok reader ∧
      z.CreateHeader (zipPath p obj.Key) = .ok (ew, z1) ∧
      Copy ew z1 reader.chunks reader.err = (z2, some e) ∧
      archiveLoop s3 b p i z (obj :: rest) =
        ⟨some (.wrap "failed to copy data to archive" e), z2,
          [.GetObject i obj.Key true, .CreateHeader i (zipPath p obj.Key) true,
           .Copy i false, .ReaderClose i]⟩) ∨
    (∃ reader ew z1 z2, s3.GetObject b obj.Key = .ok reader ∧
      z.CreateHeader (zipPath p obj.Key) = .ok (ew, z1) ∧
      Copy ew z1 reader.chunks reader.err = (z2, none) ∧
      archiveLoop s3 b p i z (obj :: rest) =
        ⟨(archiveLoop s3 b p (i + 1) z2 rest).err, (archiveLoop s3 b p (i + 1) z2 rest).zip,
          [.GetObject i obj.Key true, .CreateHeader i (zipPath p obj.Key) true,
           .Copy i true, .ReaderClose i] ++ (archiveLoop s3 b p (i + 1) z2 rest).trace⟩) := by
  cases hg : s3.GetObject b obj.Key with
  | error g => exact Or.inl ⟨g, rfl, by simp [archiveLoop, hg]⟩
  | ok reader =>
    cases hh : z.CreateHeader (zipPath p obj.Key) with
    | error e => exact Or.inr (Or.inl ⟨reader, e, rfl, rfl, by simp [archiveLoop, hg, hh]⟩)
    | ok r =>
      obtain ⟨ew, z1⟩ := r
      cases hc : Copy ew z1 reader.chunks reader.err with
      | mk z2 oe =>
        cases oe with
        | some e =>
          exact Or.inr (Or.inr (Or.inl ⟨reader, ew, z1, z2, e, rfl, rfl, hc,
            by simp [archiveLoop, hg, hh, hc]⟩))
        | none =>
          exact Or.inr (Or.inr (Or.inr ⟨reader, ew, z1, z2, rfl, rfl, hc,
            by simp [archiveLoop, hg, hh, hc]⟩))

theorem archiveLoop_nil_trace (s3 : S3Client) (b p : String) (i : Nat) (z : ZipWriter) :
    ∃ ok, (archiveLoop s3 b p i z []).trace = [.ZipClose ok] := by
  unfold archiveLoop
  cases z.Close with
  | error e => exact ⟨false, rfl⟩
  | ok z1 => exact ⟨true, rfl⟩

/-- The loop started at index `i` logs no call for an object before `i`. -/
theorem archiveLoop_notBefore (s3 : S3Client) (b p : String) (objs : List S3Object) :
    ∀ (i : Nat) (z : ZipWriter), ∀ e ∈ (archiveLoop s3 b p i z objs).trace, Event.notBefore i e := by
  induction objs with
  | nil =>
    intro i z e he
    obtain ⟨ok, h⟩ := archiveLoop_nil_trace s3 b p i z
    rw [h] at he
    simp at he
    subst he
    trivial
  | cons obj rest ih =>
    intro i z e he
    rcases archiveLoop_cons s3 b p i z obj rest with
      ⟨g, -, h⟩ | ⟨reader, e1, -, -, h⟩ | ⟨reader, ew, z1, z2, e1, -, -, -, h⟩ |
      ⟨reader, ew, z1, z2, -, -, -, h⟩
    · rw [h] at he
      simp at he
      subst he
      simp [Event.notBefore]
    · rw [h] at he
      simp at he
      rcases he with rfl | rfl | rfl <;> simp [Event.notBefore]
    · rw [h] at he
      simp at he
      rcases he with rfl | rfl | rfl | rfl <;> simp [Event.notBefore]
    · rw [h] at he
      simp at he
      rcases he with rfl | rfl | rfl | rfl | he
      · simp [Event.notBefore]
      · simp [Event.notBefore]
      · simp [Event.notBefore]
      · simp [Event.notBefore]
      · have := ih (i + 1) z2 e he
        cases e <;> simp [Event.notBefore] at this ⊢ <;> omega

/-- In every run the source streams are opened and closed one at a time. -/
theorem archiveLoop_disciplined (s3 : S3Client) (b p : String) (objs : List S3Object) :
    ∀ (i : Nat) (z : ZipWriter),
      streamsDisciplined none (archiveLoop s3 b p i z objs).trace = true := by
  induction objs with
  | nil =>
    intro i z
    obtain ⟨ok, h⟩ := archiveLoop_nil_trace s3 b p i z
    rw [h]
    simp [streamsDisciplined]
  | cons obj rest ih =>
    intro i z
    rcases archiveLoop_cons s3 b p i z obj rest with
      ⟨g, -, h⟩ | ⟨reader, e1, -, -, h⟩ | ⟨reader, ew, z1, z2, e1, -, -, -, h⟩ |
      ⟨reader, ew, z1, z2, -, -, -, h⟩
    · rw [h]; simp [streamsDisciplined]
    · rw [h]; simp [streamsDisciplined]
    · rw [h]; simp [streamsDisciplined]
    · rw [h]; simp [streamsDisciplined, ih (i + 1) z2]

/-- Every stream that was opened is closed exactly once. -/
theorem archiveLoop_closed_once (s3 : S3Client) (b p : String) (objs : List S3Object) :
    ∀ (i : Nat) (z : ZipWriter) (j : Nat) (key : String),
      Event.GetObject j key true ∈ (archiveLoop s3 b p i z objs).trace →
      (archiveLoop s3 b p i z objs).trace.count (Event.ReaderClose j) = 1 := by
  induction objs with
  | nil =>
    intro i z j key he
    obtain ⟨ok, h⟩ := archiveLoop_nil_trace s3 b p i z
    rw [h] at he
    simp at he
  | cons obj rest ih =>
    intro i z j key he
    rcases archiveLoop_cons s3 b p i z obj rest with
      ⟨g, -, h⟩ | ⟨reader, e1, -, -, h⟩ | ⟨reader, ew, z1, z2, e1, -, -, -, h⟩ |
      ⟨reader, ew, z1, z2, -, -, -, h⟩
    · rw [h] at he
      simp at he
    · rw [h] at he ⊢
      simp at he
      obtain ⟨rfl, -⟩ := he
      simp [List.count_cons]
    · rw [h] at he ⊢
      simp at he
      obtain ⟨rfl, -⟩ := he
      simp [List.count_cons]
    · rw [h] at he ⊢
      simp only [List.cons_append, List.nil_append, List.mem_cons] at he
      have hnb := archiveLoop_notBefore s3 b p rest (i + 1) z2
      rcases he with he | he | he | he | he
      · simp only [Event.GetObject.injEq] at he
        obtain ⟨rfl, -⟩ := he
        have h0 : Event.ReaderClose j ∉ (archiveLoop s3 b p (j + 1) z2 rest).trace := by
          intro hm
          have := hnb _ hm
          simp [Event.notBefore] at this
        simp [List.count_cons, List.count_eq_zero.2 h0]
      · simp at he
      · simp at he
      · simp at he
      · have hj : i + 1 ≤ j := by
          have := hnb _ he
          simpa [Event.notBefore] using this
        have hne : i ≠ j := by omega
        simp [List.count_cons, hne, ih (i + 1) z2 j key he]

/-- Every header is created under the flattened name of the key of its object. -/
theorem archiveLoop_header_name (s3 : S3Client) (b p : String) (objs : List S3Object) :
    ∀ (i : Nat) (z : ZipWriter) (j : Nat) (name : String) (ok : Bool),
      Event.CreateHeader j name ok ∈ (archiveLoop s3 b p i z objs).trace →
      i ≤ j ∧ ∃ obj, objs[j - i]? = some obj ∧ name = zipPath p obj.Key := by
  induction objs with
  | nil =>
    intro i z j name ok he
    obtain ⟨ok2, h⟩ := archiveLoop_nil_trace s3 b p i z
    rw [h] at he
    simp at he
  | cons obj rest ih =>
    intro i z j name ok he
    rcases archiveLoop_cons s3 b p i z obj rest with
      ⟨g, -, h⟩ | ⟨reader, e1, -, -, h⟩ | ⟨reader, ew, z1, z2, e1, -, -, -, h⟩ |
      ⟨reader, ew, z1, z2, -, -, -, h⟩
    · rw [h] at he
      simp at he
    · rw [h] at he
      simp at he
      obtain ⟨rfl, rfl, -⟩ := he
      exact ⟨le_refl _, obj, by simp, rfl⟩
    · rw [h] at he
      simp at he
      obtain ⟨rfl, rfl, -⟩ := he
      exact ⟨le_refl _, obj, by simp, rfl⟩
    · rw [h] at he
      simp only [List.cons_append, List.nil_append, List.mem_cons] at he
      rcases he with he | he | he | he | he
      · simp at he
      · simp only [Event.CreateHeader.injEq] at he
        obtain ⟨rfl, rfl, -⟩ := he
        exact ⟨le_refl _, obj, by simp, rfl⟩
      · simp at he
      · simp at he
      · obtain ⟨hj, o, ho, hn⟩ := ih (i + 1) z2 j name ok he
        refine ⟨by omega, o, ?_, hn⟩
        have : j - i = (j - (i + 1)) + 1 := by omega
        rw [this, List.getElem?_cons_succ]
        exact ho

/-- The run stops at the first failing `GetObject`: when the copies of the `n`
objects before it succeeded, it returns the wrapped failure, has appended the
expected entries of those `n` objects, has not finalised the archive and has
logged nothing beyond the failed call. -/
theorem archiveLoop_getObject_fails (s3 : S3Client) (b p : String) (objs : List S3Object) :
    ∀ (i : Nat) (z : ZipWriter) (n : Nat) (obj : S3Object) (g : Error),
      objs[n]? = some obj → s3.GetObject b obj.Key = .error g →
      (∀ j, i ≤ j → j < i + n → Event.Copy j true ∈ (archiveLoop s3 b p i z objs).trace) →
      (archiveLoop s3 b p i z objs).err = some (.wrap ("failed to get object " ++ obj.Key) g) ∧
      (archiveLoop s3 b p i z objs).zip.dir =
        z.dir ++ (objs.take n).map (expectedEntry s3 b p) ∧
      (archiveLoop s3 b p i z objs).zip.closed = z.closed ∧
      ∀ e ∈ (archiveLoop s3 b p i z objs).trace, Event.upTo (i + n) e := by
  induction objs with
  | nil => intro i z n obj g hn; simp at hn
  | cons o rest ih =>
    intro i z n obj g hn hg hprev
    cases n with
    | zero =>
      simp only [List.getElem?_cons_zero, Option.some.injEq] at hn
      subst hn
      have h : archiveLoop s3 b p i z (o :: rest) =
          ⟨some (.wrap ("failed to get object " ++ o.Key) g), z,
            [.GetObject i o.Key false]⟩ := by
        simp [archiveLoop, hg]
      rw [h]
      simp [Event.upTo]
    | succ n =>
      simp only [List.getElem?_cons_succ] at hn
      have hi := hprev i (le_refl _) (by omega)
      rcases archiveLoop_cons s3 b p i z o rest with
        ⟨g1, -, h⟩ | ⟨reader, e1, -, -, h⟩ | ⟨reader, ew, z1, z2, e1, -, -, -, h⟩ |
        ⟨reader, ew, z1, z2, hgo, hh, hc, h⟩
      · rw [h] at hi; simp at hi
      · rw [h] at hi; simp at hi
      · rw [h] at hi; simp at hi
      · have hprev2 : ∀ j, i + 1 ≤ j → j < i + 1 + n →
            Event.Copy j true ∈ (archiveLoop s3 b p (i + 1) z2 rest).trace := by
          intro j h1 h2
          have hm := hprev j (by omega) (by omega)
          rw [h] at hm
          have hne : j ≠ i := by omega
          simpa [hne] using hm
        obtain ⟨r1, r2, r3, r4⟩ := ih (i + 1) z2 n obj g hn hg hprev2
        obtain ⟨hd, hcl, -, -, -⟩ := CreateHeader_ok z z1 _ ew hh
        obtain ⟨-, hd2, hcl2, -⟩ := Copy_ok ew reader.chunks reader.err z1 z2 hc
        rw [h]
        refine ⟨r1, ?_, ?_, ?_⟩
        · show (archiveLoop s3 b p (i + 1) z2 rest).zip.dir = _
          rw [r2, hd2, hd, appendData_snoc]
          simp [expectedEntry, hgo, Body.content]
        · show (archiveLoop s3 b p (i + 1) z2 rest).zip.closed = _
          rw [r3, hcl2, hcl]
        · intro e he
          simp only [List.cons_append, List.nil_append, List.mem_cons] at he
          rcases he with rfl | rfl | rfl | rfl | he
          · simp [Event.upTo]
          · simp [Event.upTo]
          · simp [Event.upTo]
          · simp [Event.upTo]
          · have := r4 e he
            have heq : i + 1 + n = i + (n + 1) := by omega
            rw [heq] at this
            exact this

/-! ## Entry names -/

/-- C5. For prefix `a/b/` and key `a/b/c/file.txt` the entry name is
`c/file.txt`, and for every prefix and every key that does not start with it the
entry name is the key unchanged.  The name is the one `CreateArchive` gives:
every header it creates for the object of index `i` carries `zipPath` of the
prefix and that object's key. -/
theorem zipPath_example_and_unmatched :
    zipPath "a/b/" "a/b/c/file.txt" = "c/file.txt" ∧
    (∀ sourcePrefix key : String, HasPrefix key sourcePrefix = false →
      zipPath sourcePrefix key = key) ∧
    (∀ (w : Sink) (s3Client : S3Client) (bucket sourcePrefix : String)
      (objects : List S3Object) (i : Nat) (name : String) (ok : Bool),
      Event.CreateHeader i name ok ∈
        (CreateArchive w s3Client bucket sourcePrefix objects).trace →
      ∃ obj, objects[i]? = some obj ∧ name = zipPath sourcePrefix obj.Key) := by
  refine ⟨by decide, fun p key h => zipPath_of_not_hasPrefix p key h, ?_⟩
  intro w s3 bucket p objects i name ok h
  obtain ⟨-, obj, ho, hn⟩ := archiveLoop_header_name s3 bucket p objects 0 (NewWriter w) i name ok h
  exact ⟨obj, by simpa using ho, hn⟩

/-- C5, witness: a key outside the prefix keeps its name, and the header logged
by a run on the example key carries the flattened name. -/
theorem zipPath_example_and_unmatched_witness :
    zipPath "a/b/" "other/file.txt" = "other/file.txt" ∧
    ∃ obj, [(⟨"a/b/c/file.txt", 2⟩ : S3Object)][0]? = some obj ∧
      "c/file.txt" = zipPath "a/b/" obj.Key :=
  ⟨zipPath_example_and_unmatched.2.1 "a/b/" "other/file.txt" (by decide),
   zipPath_example_and_unmatched.2.2 ⟨none⟩ (storeOf [("a/b/c/file.txt", bodyOf [104, 105])])
     "bkt" "a/b/" [⟨"a/b/c/file.txt", 2⟩] 0 "c/file.txt" true (by decide)⟩

/-- C6, counterexample. With the empty prefix every key starts with the prefix,
and the claim asks for one leading slash to be removed: for key `/x` it gives
`x`.  The code leaves the key untouched. -/
theorem zipPath_empty_prefix_counterexample :
    HasPrefix "/x" "" = true ∧ specZipPath "" "/x" = "x" ∧ zipPath "" "/x" = "/x" ∧
      zipPath "" "/x" ≠ specZipPath "" "/x" := by
  decide

/-- C6 (amended). For every non-empty prefix: a key that starts with the prefix
is named by what follows the prefix, less exactly one leading slash if there is
one (a second slash is kept), and the name agrees with the specification's
wording; a key that does not start with the prefix keeps its name.  For the
empty prefix the name is the key unchanged, a leading slash included. -/
theorem zipPath_flatten (sourcePrefix rest key : String) :
    (sourcePrefix ≠ "" → zipPath sourcePrefix (sourcePrefix ++ ("/" ++ rest)) = rest) ∧
    (sourcePrefix ≠ "" → HasPrefix rest "/" = false →
      zipPath sourcePrefix (sourcePrefix ++ rest) = rest) ∧
    (sourcePrefix ≠ "" → zipPath sourcePrefix key = specZipPath sourcePrefix key) ∧
    (HasPrefix key sourcePrefix = false → zipPath sourcePrefix key = key) ∧
    zipPath "" key = key := by
  refine ⟨?_, ?_, ?_, zipPath_of_not_hasPrefix sourcePrefix key, zipPath_empty key⟩
  · intro hp
    rw [zipPath_append _ _ hp]
    have h : HasPrefix ("/" ++ rest) "/" = true := HasPrefix_append "/" rest
    simp only [TrimPrefix, h, if_true]
    exact String.ext (by simp [String.data_append])
  · intro hp hr
    rw [zipPath_append _ _ hp]
    simp [TrimPrefix, hr]
  · intro hp
    by_cases h : HasPrefix key sourcePrefix = true
    · simp [zipPath, specZipPath, hp, h, TrimPrefix]
    · simp [zipPath, specZipPath, h]

/-- C6, witness: under prefix `a/b` the key `a/b//x` is named `/x`, the key
`a/bc` is named `c`, and the key `zz` keeps its name. -/
theorem zipPath_flatten_witness :
    zipPath "a/b" ("a/b" ++ ("/" ++ "/x")) = "/x" ∧
    zipPath "a/b" ("a/b" ++ "c") = "c" ∧
    zipPath "a/b" "zz" = specZipPath "a/b" "zz" ∧
    zipPath "a/b" "zz" = "zz" :=
  ⟨(zipPath_flatten "a/b" "/x" "zz").1 (by decide),
   (zipPath_flatten "a/b" "c" "zz").2.1 (by decide) (by decide),
   (zipPath_flatten "a/b" "c" "zz").2.2.1 (by decide),
   (zipPath_flatten "a/b" "c" "zz").2.2.2.1 (by decide)⟩

/-- C10. The entry name is not injective on the keys under a non-empty prefix:
prefix `a/b/` names `a/b/x` and `a/b//x` alike, prefix `a` names `a/x` and `ax`
alike, and a run on the latter two keys writes an archive with two entries
called `x`. -/
theorem zipPath_not_injective :
    (∃ p k1 k2 : String, p ≠ "" ∧ k1 ≠ k2 ∧ HasPrefix k1 p = true ∧ HasPrefix k2 p = true ∧
      zipPath p k1 = zipPath p k2) ∧
    ("a/b/x" ≠ "a/b//x" ∧ HasPrefix "a/b/x" "a/b/" = true ∧ HasPrefix "a/b//x" "a/b/" = true ∧
      zipPath "a/b/" "a/b/x" = zipPath "a/b/" "a/b//x") ∧
    ("a/x" ≠ "ax" ∧ HasPrefix "a/x" "a" = true ∧ HasPrefix "ax" "a" = true ∧
      zipPath "a" "a/x" = zipPath "a" "ax") ∧
    (CreateArchive ⟨none⟩ (storeOf [("a/x", bodyOf [1]), ("ax", bodyOf [2])]) "bkt" "a"
        [⟨"a/x", 1⟩, ⟨"ax", 1⟩]).err = none ∧
    (CreateArchive ⟨none⟩ (storeOf [("a/x", bodyOf [1]), ("ax", bodyOf [2])]) "bkt" "a"
        [⟨"a/x", 1⟩, ⟨"ax", 1⟩]).zip.dir = [⟨"x", [1]⟩, ⟨"x", [2]⟩] := by
  refine ⟨⟨"a", "a/x", "ax", by decide, by decide, by decide, by decide, by decide⟩,
    by decide, by decide, by decide, by decide⟩

/-! ## The archive producer: the claims -/

/-- C1, counterexample. The object `d/` holds one byte; `GetObject`, the read of
the stream and every write to the sink succeed.  Its name ends in a slash, so
the archive writer makes a directory entry and refuses the byte:
`CreateArchive` returns an error and the entry has no content. -/
theorem createArchive_directory_key_counterexample :
    (⟨none⟩ : Sink).failure = none ∧
    (storeOf [("d/", bodyOf [1])]).GetObject "bkt" "d/" = .ok (bodyOf [1]) ∧
    (bodyOf [1]).err = none ∧
    (CreateArchive ⟨none⟩ (storeOf [("d/", bodyOf [1])]) "bkt" "" [⟨"d/", 1⟩]).err =
      some (.wrap "failed to copy data to archive" (.base "zip: write to directory")) ∧
    (CreateArchive ⟨none⟩ (storeOf [("d/", bodyOf [1])]) "bkt" "" [⟨"d/", 1⟩]).zip.dir ≠
      [(⟨"d/", 1⟩ : S3Object)].map (expectedEntry (storeOf [("d/", bodyOf [1])]) "bkt" "") := by
  refine ⟨rfl, rfl, rfl, by decide, by decide⟩

/-- C1 (amended). When every `GetObject` call, every read of a source stream and
every write to the sink succeeds, and the archive writer accepts every entry (no
flattened name is longer than 65535 bytes, and no object whose flattened name
ends in a slash yields a byte), `CreateArchive` returns no error, has finalised
the archive and has written exactly one entry per listed object, in listing
order: the entry of an object is named by the flattened name of its key and
holds the bytes read from its stream. -/
theorem createArchive_writes_all (w : Sink) (s3Client : S3Client) (bucket sourcePrefix : String)
    (objects : List S3Object) (hw : w.failure = none)
    (hobj : ∀ o ∈ objects, ∃ body, s3Client.GetObject bucket o.Key = .ok body ∧
      body.err = none ∧ (zipPath sourcePrefix o.Key).utf8ByteSize ≤ 65535 ∧
      (HasSuffix (zipPath sourcePrefix o.Key) "/" = true → body.content = [])) :
    (CreateArchive w s3Client bucket sourcePrefix objects).err = none ∧
    (CreateArchive w s3Client bucket sourcePrefix objects).zip.closed = true ∧
    (CreateArchive w s3Client bucket sourcePrefix objects).zip.dir.length = objects.length ∧
    (CreateArchive w s3Client bucket sourcePrefix objects).zip.dir =
      objects.map (expectedEntry s3Client bucket sourcePrefix) ∧
    ∀ (i : Nat) (obj : S3Object), objects[i]? = some obj →
      ∃ body, s3Client.GetObject bucket obj.Key = .ok body ∧
        (CreateArchive w s3Client bucket sourcePrefix objects).zip.dir[i]? =
          some ⟨zipPath sourcePrefix obj.Key, body.content⟩ := by
  have herr := archiveLoop_succeeds s3Client bucket sourcePrefix objects 0 (NewWriter w) hw rfl hobj
  obtain ⟨hd, hc⟩ := archiveLoop_ok s3Client bucket sourcePrefix objects 0 (NewWriter w) herr
  have hd2 : (CreateArchive w s3Client bucket sourcePrefix objects).zip.dir =
      objects.map (expectedEntry s3Client bucket sourcePrefix) := by
    simpa [CreateArchive, NewWriter] using hd
  refine ⟨herr, hc, by rw [hd2]; simp, hd2, ?_⟩
  intro i obj hi
  obtain ⟨body, hg, -⟩ := hobj obj (List.getElem?_mem hi)
  refine ⟨body, hg, ?_⟩
  rw [hd2, List.getElem?_map, hi]
  simp [expectedEntry, hg]

/-- C1, witness: two objects under prefix `a/`, the second one empty and named
like a directory. -/
theorem createArchive_writes_all_witness :
    (CreateArchive ⟨none⟩ (storeOf [("a/x", bodyOf [7, 8]), ("a/d/", bodyOf [])]) "bkt" "a/"
        [⟨"a/x", 2⟩, ⟨"a/d/", 0⟩]).err = none ∧
    (CreateArchive ⟨none⟩ (storeOf [("a/x", bodyOf [7, 8]), ("a/d/", bodyOf [])]) "bkt" "a/"
        [⟨"a/x", 2⟩, ⟨"a/d/", 0⟩]).zip.dir =
      [(⟨"a/x", 2⟩ : S3Object), ⟨"a/d/", 0⟩].map
        (expectedEntry (storeOf [("a/x", bodyOf [7, 8]), ("a/d/", bodyOf [])]) "bkt" "a/") ∧
    [(⟨"a/x", 2⟩ : S3Object), ⟨"a/d/", 0⟩].map
        (expectedEntry (storeOf [("a/x", bodyOf [7, 8]), ("a/d/", bodyOf [])]) "bkt" "a/") =
      [⟨"x", [7, 8]⟩, ⟨"d/", []⟩] :=
  have h := createArchive_writes_all ⟨none⟩
    (storeOf [("a/x", bodyOf [7, 8]), ("a/d/", bodyOf [])]) "bkt" "a/"
    [⟨"a/x", 2⟩, ⟨"a/d/", 0⟩] rfl
    (by
      intro o ho
      simp only [List.mem_cons, List.mem_singleton, List.not_mem_nil, or_false] at ho
      rcases ho with rfl | rfl
      · exact ⟨bodyOf [7, 8], rfl, rfl, by decide, by decide⟩
      · exact ⟨bodyOf [], rfl, rfl, by decide, by decide⟩)
  ⟨h.1, h.2.2.2.1, by decide⟩

theorem Error.Is_self (e : Error) : e.Is e = true := by
  cases e <;> simp [Error.Is]

theorem Error.Is_wrap (m : String) (c t : Error) (h : c.Is t = true) :
    (Error.wrap m c).Is t = true := by
  simp [Error.Is, h]

/-- On a sink that never fails, the loop gets through its first `n` objects when
each of them can be opened and read to its end and the archive writer accepts
its entry: the copy of each of them is logged as successful. -/
theorem archiveLoop_progress (s3 : S3Client) (b p : String) (objs : List S3Object) :
    ∀ (i : Nat) (z : ZipWriter) (n : Nat), z.w.failure = none → n ≤ objs.length →
      (∀ m o, m < n → objs[m]? = some o →
        ∃ body, s3.GetObject b o.Key = .ok body ∧ body.err = none ∧
          (zipPath p o.Key).utf8ByteSize ≤ 65535 ∧
          (HasSuffix (zipPath p o.Key) "/" = true → body.content = [])) →
      ∀ j, i ≤ j → j < i + n → Event.Copy j true ∈ (archiveLoop s3 b p i z objs).trace := by
  induction objs with
  | nil =>
    intro i z n _ hn _ j h1 h2
    simp at hn
    omega
  | cons obj rest ih =>
    intro i z n hw hn hall j h1 h2
    cases n with
    | zero => omega
    | succ n =>
      obtain ⟨body, hg, hr, hsz, hd⟩ := hall 0 obj (by omega) (by simp)
      have hh : z.CreateHeader (zipPath p obj.Key) =
          .ok (if HasSuffix (zipPath p obj.Key) "/" then .dirWriter else .fileWriter,
            { z with ops := z.ops + 1, dir := z.dir ++ [⟨zipPath p obj.Key, []⟩] }) := by
        have : ¬ (zipPath p obj.Key).utf8ByteSize > 65535 := by omega
        simp [ZipWriter.CreateHeader, sinkErr_of_no_failure z hw, this]
      obtain ⟨z2, hcopy⟩ := Copy_succeeds
        (if HasSuffix (zipPath p obj.Key) "/" then .dirWriter else .fileWriter) body.chunks
        { z with ops := z.ops + 1, dir := z.dir ++ [⟨zipPath p obj.Key, []⟩] } hw
        (by
          intro hdir
          by_cases hs : HasSuffix (zipPath p obj.Key) "/" = true
          · exact hd hs
          · simp [hs] at hdir)
      obtain ⟨-, -, -, hw2⟩ := Copy_ok _ body.chunks none _ z2 hcopy
      have hrun : (archiveLoop s3 b p i z (obj :: rest)).trace =
          [.GetObject i obj.Key true, .CreateHeader i (zipPath p obj.Key) true,
           .Copy i true, .ReaderClose i] ++ (archiveLoop s3 b p (i + 1) z2 rest).trace := by
        simp only [archiveLoop, hg, hh]
        rw [hr, hcopy]
      rw [hrun]
      by_cases hji : j = i
      · subst hji
        simp
      · have hrec := ih (i + 1) z2 n (by rw [hw2]; exact hw)
          (by simpa using hn)
          (fun m o hm ho => hall (m + 1) o (by omega) (by simpa using ho))
          j (by omega) (by omega)
        simp [hrec]

/-- C2. `K` counts the objects before the failing one (the claim's `K` is
`K + 1`).  Take any list, prefix and store, and a sink that accepts every write.
If `GetObject` fails with `g` for the object of index `K`, while each object
before it can be opened and read to its end and the archive writer accepts its
entry (so that `GetObject` and the copy succeed for it), then `CreateArchive`
returns an error that wraps `g`; the copy of every object before `K` has been
made, and the entries written are exactly those of the first `K` objects, in
order; no header and no data is written for the object of index `K` or a later
one; no object after it is opened; and the archive is not finalised. -/
theorem createArchive_getObject_failure (w : Sink) (s3Client : S3Client)
    (bucket sourcePrefix : String) (objects : List S3Object) (K : Nat) (obj : S3Object)
    (g : Error) (hK : objects[K]? = some obj)
    (hg : s3Client.GetObject bucket obj.Key = .error g)
    (hw : w.failure = none)
    (hprev : ∀ j o, j < K → objects[j]? = some o →
      ∃ body, s3Client.GetObject bucket o.Key = .ok body ∧ body.err = none ∧
        (zipPath sourcePrefix o.Key).utf8ByteSize ≤ 65535 ∧
        (HasSuffix (zipPath sourcePrefix o.Key) "/" = true → body.content = [])) :
    (CreateArchive w s3Client bucket sourcePrefix objects).err =
      some (.wrap ("failed to get object " ++ obj.Key) g) ∧
    (Error.wrap ("failed to get object " ++ obj.Key) g).Is g = true ∧
    (∀ j, j < K → Event.Copy j true ∈
      (CreateArchive w s3Client bucket sourcePrefix objects).trace) ∧
    (CreateArchive w s3Client bucket sourcePrefix objects).zip.dir =
      (objects.take K).map (expectedEntry s3Client bucket sourcePrefix) ∧
    (CreateArchive w s3Client bucket sourcePrefix objects).zip.dir.length = K ∧
    (∀ j name ok, K ≤ j → Event.CreateHeader j name ok ∉
      (CreateArchive w s3Client bucket sourcePrefix objects).trace) ∧
    (∀ j ok, K ≤ j → Event.Copy j ok ∉
      (CreateArchive w s3Client bucket sourcePrefix objects).trace) ∧
    (∀ j key ok, K < j → Event.GetObject j key ok ∉
      (CreateArchive w s3Client bucket sourcePrefix objects).trace) ∧
    (CreateArchive w s3Client bucket sourcePrefix objects).zip.closed = false ∧
    (∀ ok, Event.ZipClose ok ∉ (CreateArchive w s3Client bucket sourcePrefix objects).trace) := by
  have hlen : K < objects.length := by
    by_contra hc
    rw [List.getElem?_eq_none (by omega)] at hK
    simp at hK
  have hcopied : ∀ j, j < K → Event.Copy j true ∈
      (CreateArchive w s3Client bucket sourcePrefix objects).trace := fun j hj =>
    archiveLoop_progress s3Client bucket sourcePrefix objects 0 (NewWriter w) K hw
      (by omega) hprev j (by omega) (by omega)
  obtain ⟨h1, h2, h3, h4⟩ := archiveLoop_getObject_fails s3Client bucket sourcePrefix objects 0
    (NewWriter w) K obj g hK hg (fun j _ hj => hcopied j (by omega))
  have hd : (CreateArchive w s3Client bucket sourcePrefix objects).zip.dir =
      (objects.take K).map (expectedEntry s3Client bucket sourcePrefix) := by
    simpa [CreateArchive, NewWriter] using h2
  refine ⟨h1, Error.Is_wrap _ _ _ (Error.Is_self g), hcopied, hd, ?_, ?_, ?_, ?_, h3, ?_⟩
  · rw [hd]
    simp
    omega
  · intro j name ok hj hm
    have := h4 _ hm
    simp [Event.upTo] at this
    omega
  · intro j ok hj hm
    have := h4 _ hm
    simp [Event.upTo] at this
    omega
  · intro j key ok hj hm
    have := h4 _ hm
    simp [Event.upTo] at this
    omega
  · intro ok hm
    have := h4 _ hm
    simp [Event.upTo] at this

/-- C2, witness: the listing shows `a/x`, `a/y` and `a/z`, and `a/z` cannot be
opened: the run returns the wrapped failure with the entries of `a/x` and `a/y`
written and the archive left open. -/
theorem createArchive_getObject_failure_witness :
    (CreateArchive ⟨none⟩ (storeOf [("a/x", bodyOf [7]), ("a/y", bodyOf [8, 9])]) "bkt" "a/"
        [⟨"a/x", 1⟩, ⟨"a/y", 2⟩, ⟨"a/z", 1⟩]).err =
      some (.wrap ("failed to get object " ++ "a/z")
        (.wrap "error getting object bkt/a/z" (.base "NoSuchKey"))) ∧
    (CreateArchive ⟨none⟩ (storeOf [("a/x", bodyOf [7]), ("a/y", bodyOf [8, 9])]) "bkt" "a/"
        [⟨"a/x", 1⟩, ⟨"a/y", 2⟩, ⟨"a/z", 1⟩]).zip.dir =
      ([(⟨"a/x", 1⟩ : S3Object), ⟨"a/y", 2⟩, ⟨"a/z", 1⟩].take 2).map
        (expectedEntry (storeOf [("a/x", bodyOf [7]), ("a/y", bodyOf [8, 9])]) "bkt" "a/") ∧
    (CreateArchive ⟨none⟩ (storeOf [("a/x", bodyOf [7]), ("a/y", bodyOf [8, 9])]) "bkt" "a/"
        [⟨"a/x", 1⟩, ⟨"a/y", 2⟩, ⟨"a/z", 1⟩]).zip.closed = false ∧
    (CreateArchive ⟨none⟩ (storeOf [("a/x", bodyOf [7]), ("a/y", bodyOf [8, 9])]) "bkt" "a/"
        [⟨"a/x", 1⟩, ⟨"a/y", 2⟩, ⟨"a/z", 1⟩]).zip.dir = [⟨"x", [7]⟩, ⟨"y", [8, 9]⟩] :=
  have h := createArchive_getObject_failure ⟨none⟩
    (storeOf [("a/x", bodyOf [7]), ("a/y", bodyOf [8, 9])]) "bkt" "a/"
    [⟨"a/x", 1⟩, ⟨"a/y", 2⟩, ⟨"a/z", 1⟩] 2 ⟨"a/z", 1⟩
    (.wrap "error getting object bkt/a/z" (.base "NoSuchKey")) rfl rfl rfl
    (by
      intro j o hj ho
      have hj2 : j = 0 ∨ j = 1 := by omega
      rcases hj2 with rfl | rfl
      · simp only [List.getElem?_cons_zero, Option.some.injEq] at ho
        subst ho
        exact ⟨bodyOf [7], rfl, rfl, by decide, by decide⟩
      · simp only [List.getElem?_cons_succ, List.getElem?_cons_zero, Option.some.injEq] at ho
        subst ho
        exact ⟨bodyOf [8, 9], rfl, rfl, by decide, by decide⟩)
  ⟨h.1, h.2.2.2.1, h.2.2.2.2.2.2.2.2.1, by decide⟩

/-- C7. In every run of `CreateArchive`, whichever step fails: a source stream
is opened only while no other is open, every `reader.Close()` closes the stream
that is open, no stream is open when `CreateArchive` returns, and every stream
that a successful `GetObject` returned is closed exactly once. -/
theorem createArchive_streams_closed (w : Sink) (s3Client : S3Client)
    (bucket sourcePrefix : String) (objects : List S3Object) :
    streamsDisciplined none (CreateArchive w s3Client bucket sourcePrefix objects).trace = true ∧
    ∀ (j : Nat) (key : String),
      Event.GetObject j key true ∈ (CreateArchive w s3Client bucket sourcePrefix objects).trace →
      (CreateArchive w s3Client bucket sourcePrefix objects).trace.count (Event.ReaderClose j) = 1 :=
  ⟨archiveLoop_disciplined s3Client bucket sourcePrefix objects 0 (NewWriter w),
   archiveLoop_closed_once s3Client bucket sourcePrefix objects 0 (NewWriter w)⟩

/-- C7, witness: the stream of the second object breaks after one byte, the copy
fails, and the stream is closed all the same. -/
theorem createArchive_streams_closed_witness :
    (CreateArchive ⟨none⟩
        (storeOf [("a/x", bodyOf [7]), ("a/y", ⟨[[8]], some (.base "connection reset")⟩)])
        "bkt" "a/" [⟨"a/x", 1⟩, ⟨"a/y", 2⟩]).trace =
      [.GetObject 0 "a/x" true, .CreateHeader 0 "x" true, .Copy 0 true, .ReaderClose 0,
       .GetObject 1 "a/y" true, .CreateHeader 1 "y" true, .Copy 1 false, .ReaderClose 1] ∧
    (CreateArchive ⟨none⟩
        (storeOf [("a/x", bodyOf [7]), ("a/y", ⟨[[8]], some (.base "connection reset")⟩)])
        "bkt" "a/" [⟨"a/x", 1⟩, ⟨"a/y", 2⟩]).trace.count (Event.ReaderClose 1) = 1 :=
  ⟨by decide,
   (createArchive_streams_closed ⟨none⟩
      (storeOf [("a/x", bodyOf [7]), ("a/y", ⟨[[8]], some (.base "connection reset")⟩)])
      "bkt" "a/" [⟨"a/x", 1⟩, ⟨"a/y", 2⟩]).2 1 "a/y" (by decide)⟩

/-- C8, counterexample. Listing prefix `a/b/` shows the zero-byte object `a/b/`
(a folder marker).  The run has no failing step and the object gets an entry of
its own with no content, but the name of that entry is empty. -/
theorem createArchive_empty_name_counterexample :
    (CreateArchive ⟨none⟩ (storeOf [("a/b/", bodyOf []), ("a/b/x", bodyOf [7])]) "bkt" "a/b/"
        [⟨"a/b/", 0⟩, ⟨"a/b/x", 1⟩]).err = none ∧
    (storeOf [("a/b/", bodyOf []), ("a/b/x", bodyOf [7])]).GetObject "bkt" "a/b/" =
      .ok (bodyOf []) ∧
    (bodyOf []).content = [] ∧
    (CreateArchive ⟨none⟩ (storeOf [("a/b/", bodyOf []), ("a/b/x", bodyOf [7])]) "bkt" "a/b/"
        [⟨"a/b/", 0⟩, ⟨"a/b/x", 1⟩]).zip.dir = [⟨"", []⟩, ⟨"x", [7]⟩] ∧
    zipPath "a/b/" "a/b/" = "" := by
  refine ⟨by decide, rfl, rfl, by decide, by decide⟩

/-- C8 (amended). In a run with no failing step, a listed object whose stream
yields zero bytes has an entry of its own, at its position in listing order (the
archive has as many entries as the listing has objects), with empty content and
with the flattened name of its key.  That name is empty exactly when the key is
empty or, for a non-empty prefix, when the key is the prefix itself or the
prefix followed by one slash; in every other case the name is non-empty. -/
theorem createArchive_empty_object (w : Sink) (s3Client : S3Client)
    (bucket sourcePrefix : String) (objects : List S3Object) (i : Nat) (obj : S3Object)
    (body : Body)
    (hrun : (CreateArchive w s3Client bucket sourcePrefix objects).err = none)
    (hi : objects[i]? = some obj)
    (hg : s3Client.GetObject bucket obj.Key = .ok body)
    (h0 : body.content = []) :
    (CreateArchive w s3Client bucket sourcePrefix objects).zip.dir.length = objects.length ∧
    (CreateArchive w s3Client bucket sourcePrefix objects).zip.dir[i]? =
      some ⟨zipPath sourcePrefix obj.Key, []⟩ ∧
    (zipPath sourcePrefix obj.Key = "" ↔
      obj.Key = "" ∨ (sourcePrefix ≠ "" ∧
        (obj.Key = sourcePrefix ∨ obj.Key = sourcePrefix ++ "/"))) ∧
    (obj.Key ≠ "" → obj.Key ≠ sourcePrefix → obj.Key ≠ sourcePrefix ++ "/" →
      zipPath sourcePrefix obj.Key ≠ "") := by
  obtain ⟨hd, -⟩ := archiveLoop_ok s3Client bucket sourcePrefix objects 0 (NewWriter w) hrun
  have hd2 : (CreateArchive w s3Client bucket sourcePrefix objects).zip.dir =
      objects.map (expectedEntry s3Client bucket sourcePrefix) := by
    simpa [CreateArchive, NewWriter] using hd
  refine ⟨by rw [hd2]; simp, ?_, zipPath_eq_empty_iff sourcePrefix obj.Key, ?_⟩
  · rw [hd2, List.getElem?_map, hi]
    simp [expectedEntry, hg, h0]
  · intro h1 h2 h3 hz
    rcases (zipPath_eq_empty_iff sourcePrefix obj.Key).1 hz with h | ⟨-, h | h⟩
    · exact h1 h
    · exact h2 h
    · exact h3 h

/-- C8, witness: the zero-byte object `a/b/empty.txt`, second in the listing,
becomes the second entry, named `empty.txt`, with no content. -/
theorem createArchive_empty_object_witness :
    (CreateArchive ⟨none⟩ (storeOf [("a/b/x", bodyOf [7]), ("a/b/empty.txt", bodyOf [])]) "bkt"
        "a/b/" [⟨"a/b/x", 1⟩, ⟨"a/b/empty.txt", 0⟩]).zip.dir[1]? =
      some ⟨zipPath "a/b/" "a/b/empty.txt", []⟩ ∧
    zipPath "a/b/" "a/b/empty.txt" ≠ "" ∧
    zipPath "a/b/" "a/b/empty.txt" = "empty.txt" :=
  have h := createArchive_empty_object ⟨none⟩
    (storeOf [("a/b/x", bodyOf [7]), ("a/b/empty.txt", bodyOf [])]) "bkt" "a/b/"
    [⟨"a/b/x", 1⟩, ⟨"a/b/empty.txt", 0⟩] 1 ⟨"a/b/empty.txt", 0⟩ (bodyOf [])
    (by decide) rfl rfl rfl
  ⟨h.2.1, h.2.2.2 (by decide) (by decide) (by decide), by decide⟩

/-! ## The transfer orchestrator: the claims -/

/-- C3, counterexample. The listing shows `a/x`, which cannot be opened:
`CreateArchive` fails with `e`, and `processTransfer` returns not `e` but `e`
wrapped by `UploadStream` and wrapped again by `processTransfer`. -/
theorem processTransfer_wraps_counterexample :
    deniedStore.ListObjects "src" "a/" = .ok [⟨"a/x", 1⟩] ∧
    (CreateArchive ⟨none⟩ deniedStore "src" "a/" [⟨"a/x", 1⟩]).err =
      some (.wrap "failed to get object a/x"
        (.wrap "error getting object src/a/x" (.base "AccessDenied"))) ∧
    (processTransfer deniedStore "src" "a/" "dst" "out.zip").err ≠
      some (.wrap "failed to get object a/x"
        (.wrap "error getting object src/a/x" (.base "AccessDenied"))) ∧
    (processTransfer deniedStore "src" "a/" "dst" "out.zip").err =
      some (.wrap "failed to upload archive" (.wrap "error reading data"
        (.wrap "failed to get object a/x"
          (.wrap "error getting object src/a/x" (.base "AccessDenied"))))) := by
  refine ⟨rfl, by decide, by decide, by decide⟩

/-- C3 (amended). For every run of `processTransfer` in which the listing
succeeds with a non-empty list: if `CreateArchive` fails with `e`, the write end
of the pipe is closed with `e`, the uploader's read of the pipe ends with `e`,
and `processTransfer` returns an error that wraps `e` (`e` wrapped by
`UploadStream` as `error reading data`, then by `processTransfer` as `failed to
upload archive`), not `e` itself; if neither `CreateArchive` nor `UploadStream`
fails, `processTransfer` returns `nil`.  In every case the result is the first
error received on the completion channel, wrapped as `failed to upload archive`,
or `nil` when none was sent, and at most one error is sent. -/
theorem processTransfer_result (s3Client : S3Client)
    (sourceBucket sourcePrefix destBucket destKey : String) (objects : List S3Object)
    (hl : s3Client.ListObjects sourceBucket sourcePrefix = .ok objects)
    (hne : objects ≠ []) :
    (∀ e, (CreateArchive ⟨none⟩ s3Client sourceBucket sourcePrefix objects).err = some e →
      TransferEvent.PipeWriterClose (some e) ∈
        (processTransfer s3Client sourceBucket sourcePrefix destBucket destKey).trace ∧
      TransferEvent.PipeRead (some e) ∈
        (processTransfer s3Client sourceBucket sourcePrefix destBucket destKey).trace ∧
      (processTransfer s3Client sourceBucket sourcePrefix destBucket destKey).err =
        some (.wrap "failed to upload archive" (.wrap "error reading data" e)) ∧
      (Error.wrap "failed to upload archive" (.wrap "error reading data" e)).Is e = true ∧
      (processTransfer s3Client sourceBucket sourcePrefix destBucket destKey).err ≠ some e) ∧
    ((CreateArchive ⟨none⟩ s3Client sourceBucket sourcePrefix objects).err = none →
      s3Client.UploadStream
        (.ok (CreateArchive ⟨none⟩ s3Client sourceBucket sourcePrefix objects).zip)
        destBucket destKey = none →
      (processTransfer s3Client sourceBucket sourcePrefix destBucket destKey).err = none) ∧
    (processTransfer s3Client sourceBucket sourcePrefix destBucket destKey).err =
      (recv (processTransfer s3Client sourceBucket sourcePrefix destBucket destKey).errCh).map
        (Error.wrap "failed to upload archive") ∧
    (processTransfer s3Client sourceBucket sourcePrefix destBucket destKey).errCh.length ≤ 1 := by
  have hlen : ¬ objects.length = 0 := by
    intro h
    exact hne (List.length_eq_zero.1 h)
  refine ⟨?_, ?_, ?_, ?_⟩
  · intro e he
    simp only [processTransfer, hl, hlen, if_false, he, S3Client.UploadStream]
    refine ⟨by simp, by simp, by simp [recv], ?_, ?_⟩
    · exact Error.Is_wrap _ _ _ (Error.Is_wrap _ _ _ (Error.Is_self e))
    · simp only [recv, Option.toList, List.head?_cons, Option.map_some', ne_eq,
        Option.some.injEq]
      intro h
      have := congrArg sizeOf h
      simp at this
      omega
  · intro he hu
    simp only [processTransfer, hl, hlen, if_false, he]
    rw [hu]
    simp [recv]
  · simp only [processTransfer, hl, hlen, if_false]
  · simp only [processTransfer, hl, hlen, if_false]
    cases S3Client.UploadStream _ _ _ _ <;> simp

/-- C3, witness: a run whose only object cannot be opened returns the doubly
wrapped error, and a run on a readable object returns `nil`. -/
theorem processTransfer_result_witness :
    (processTransfer deniedStore "src" "a/" "dst" "out.zip").err =
      some (.wrap "failed to upload archive" (.wrap "error reading data"
        (.wrap "failed to get object a/x"
          (.wrap "error getting object src/a/x" (.base "AccessDenied"))))) ∧
    (processTransfer (storeOf [("a/x", bodyOf [7])]) "src" "a/" "dst" "out.zip").err = none :=
  ⟨((processTransfer_result deniedStore "src" "a/" "dst" "out.zip" [⟨"a/x", 1⟩] rfl
      (by decide)).1
      (.wrap "failed to get object a/x"
        (.wrap "error getting object src/a/x" (.base "AccessDenied"))) (by decide)).2.2.1,
   (processTransfer_result (storeOf [("a/x", bodyOf [7])]) "src" "a/" "dst" "out.zip"
      [⟨"a/x", 1⟩] rfl (by decide)).2.1 (by decide) rfl⟩

/-- C4. If `ListObjects` succeeds and returns no object, `processTransfer`
returns the `no objects found` failure having done nothing but the listing: no
pipe is created, neither goroutine is started, `CreateArchive` makes no call (in
particular no `GetObject`), `UploadStream` is not called and nothing is sent on
the completion channel. -/
theorem processTransfer_no_objects (s3Client : S3Client)
    (sourceBucket sourcePrefix destBucket destKey : String)
    (hl : s3Client.ListObjects sourceBucket sourcePrefix = .ok []) :
    (processTransfer s3Client sourceBucket sourcePrefix destBucket destKey).err =
      some (.base ("no objects found with prefix " ++ sourcePrefix ++ " in bucket " ++
        sourceBucket)) ∧
    (processTransfer s3Client sourceBucket sourcePrefix destBucket destKey).trace =
      [.ListObjects sourceBucket sourcePrefix] ∧
    TransferEvent.Pipe ∉
      (processTransfer s3Client sourceBucket sourcePrefix destBucket destKey).trace ∧
    TransferEvent.GoUpload ∉
      (processTransfer s3Client sourceBucket sourcePrefix destBucket destKey).trace ∧
    TransferEvent.GoArchive ∉
      (processTransfer s3Client sourceBucket sourcePrefix destBucket destKey).trace ∧
    (∀ i key ok, TransferEvent.Archive (.GetObject i key ok) ∉
      (processTransfer s3Client sourceBucket sourcePrefix destBucket destKey).trace) ∧
    (∀ e, TransferEvent.Archive e ∉
      (processTransfer s3Client sourceBucket sourcePrefix destBucket destKey).trace) ∧
    (∀ b k r, TransferEvent.UploadStream b k r ∉
      (processTransfer s3Client sourceBucket sourcePrefix destBucket destKey).trace) ∧
    (processTransfer s3Client sourceBucket sourcePrefix destBucket destKey).errCh = [] := by
  have h : processTransfer s3Client sourceBucket sourcePrefix destBucket destKey =
      ⟨some (.base ("no objects found with prefix " ++ sourcePrefix ++ " in bucket " ++
        sourceBucket)), [], [.ListObjects sourceBucket sourcePrefix]⟩ := by
    simp [processTransfer, hl]
  rw [h]
  simp

/-- C4, witness: an empty store. -/
theorem processTransfer_no_objects_witness :
    (storeOf []).ListObjects "src" "a/" = .ok [] ∧
    (processTransfer (storeOf []) "src" "a/" "dst" "out.zip").err =
      some (.base ("no objects found with prefix " ++ "a/" ++ " in bucket " ++ "src")) ∧
    (processTransfer (storeOf []) "src" "a/" "dst" "out.zip").trace =
      [.ListObjects "src" "a/"] :=
  have h := processTransfer_no_objects (storeOf []) "src" "a/" "dst" "out.zip" rfl
  ⟨rfl, h.1, h.2.1⟩

end S3Archiver

